import Mathlib

/-
Verification of the sourcerer manifest checker (main.go) against its
natural-language specification.  The Go program is shallowly embedded:
pure functions become Lean functions, the network and filesystem
collaborators become explicit inputs, and fallible code returns
Except or Option.
-/

deriving instance DecidableEq for Except

namespace Sourcerer

/-- One pinned dependency from a manifest: the Go struct SourceEntry
with fields Repo, Tag and URL. -/
structure SourceEntry where
  Repo : String
  Tag : String
  URL : String
  deriving DecidableEq

/-- A parsed manifest: the Go struct Config holding a list of sources. -/
structure Config where
  Sources : List SourceEntry
  deriving DecidableEq

/-- The manifest filename constant from main.go. -/
def manifestName : String := "SOURCES"

/-- The two error cases produced by mkSemver in main.go: a component that
strconv.ParseInt rejects, and the part-below-zero branch. -/
inductive SemverErr where
  | parseFail (s : String)
  | negPart (s : String)
  deriving DecidableEq

/-- Errors returned by checkEntry in main.go, one constructor per return
site: repository-reference parse failure, http.Get failure, body read
failure, JSON decode failure, and a compareSemver failure carrying the
two optional sub-errors exactly as the Go error message does. -/
inductive EntryErr where
  | repoParse (repo : String)
  | httpGet (repo : String)
  | readBody (url : String)
  | parseBody (url : String)
  | compare (e1 e2 : Option SemverErr)
  deriving DecidableEq

/-- The four success messages checkEntry can return, one constructor per
return site in main.go (the raw-url message, the yellow unverifiable
message, the red newer-version message with both tags, and the green
up-to-date message). -/
inductive Msg where
  | rawUrl (url : String)
  | unverifiable (repo : String)
  | newer (repo pinned latest : String)
  | upToDate (repo : String)
  deriving DecidableEq

/-- Outcome of the external release-lookup interaction in checkEntry:
http.Get error, body read error, JSON unmarshal error, or a decoded
object.  Of the decoded map only the key name matters to the code; a
value of none models the key being absent or JSON null (Go stores a nil
pointer for both, so the nil test on line 113 covers both). -/
inductive HttpOutcome where
  | getErr
  | readErr
  | unmarshalErr
  | ok (name : Option String)
  deriving DecidableEq

/-- Numeric value of a digit string, as strconv.ParseInt computes it for
a base-10 run of digits. -/
def digitsVal (cs : List Char) : Nat :=
  cs.foldl (fun acc c => 10 * acc + (c.toNat - Char.toNat '0')) 0

/-- Embedding of the anchored tail of semverRE: match the pattern of at
most k dot-separated digit runs, anchored to the end of the input, and
return the captured digit runs in order.  The regex in main.go is
anchored on both sides, so after the optional groups the input must be
exhausted; a leftover character (for example a dash suffix or a sixth
dot-separated component) makes the whole match fail. -/
def matchParts (k : Nat) (cs : List Char) : Option (List (List Char)) :=
  match k with
  | 0 => none
  | k' + 1 =>
    if (cs.takeWhile Char.isDigit).isEmpty then none
    else
      match cs.dropWhile Char.isDigit with
      | [] => some [cs.takeWhile Char.isDigit]
      | c :: rest =>
        if c = '.' then
          match matchParts k' rest with
          | some gs => some (cs.takeWhile Char.isDigit :: gs)
          | none => none
        else none

/-- Embedding of semverRE.FindStringSubmatch restricted to the named
groups first..fifth: strip the leading non-digit run (the leading
non-digit star), then match up to five dot-separated digit runs anchored
at the end of the string.  Returns none when the regex does not match
(FindStringSubmatch returning nil). -/
def semverMatch (s : String) : Option (List (List Char)) :=
  matchParts 5 (s.data.dropWhile (fun c => !c.isDigit))

/-- Embedding of strconv.ParseInt(s, 10, 32): an optional sign, then a
non-empty run of digits, with the value required to fit in a signed
32-bit integer; none models a non-nil error (syntax or range). -/
def parseInt32 (cs : List Char) : Option Int :=
  let sd : Int × List Char :=
    match cs with
    | c :: rest => if c = '-' then (-1, rest) else if c = '+' then (1, rest) else (1, cs)
    | [] => (1, [])
  match sd with
  | (sign, digits) =>
    if digits.isEmpty then none
    else if digits.all Char.isDigit then
      let n : Int := sign * (digitsVal digits : Int)
      if n < -2147483648 ∨ (2147483647 : Int) < n then none else some n
    else none

/-- The loop body of mkSemver in main.go applied to the captured groups:
each group is parsed with ParseInt, a parse failure or a negative part
aborts with the corresponding error, otherwise the parts are collected
in order. -/
def mkSemverParts (s : String) : List (List Char) → Except SemverErr (List Int)
  | [] => .ok []
  | g :: gs =>
    match parseInt32 g with
    | none => .error (.parseFail s)
    | some part =>
      if part < 0 then .error (.negPart s)
      else
        match mkSemverParts s gs with
        | .ok rest => .ok (part :: rest)
        | .error e => .error e

/-- Embedding of mkSemver in main.go: run the regex; when it does not
match, the loop over submatches never fires and the function returns the
empty vector with no error; when it matches, parse each captured group. -/
def mkSemver (s : String) : Except SemverErr (List Int) :=
  match semverMatch s with
  | none => .ok []
  | some gs => mkSemverParts s gs

/-- Recognizer for the negative-part error of mkSemver, used to state
that this branch is unreachable. -/
def isNegErr : Except SemverErr (List Int) → Bool
  | .error (.negPart _) => true
  | _ => false

/-- The comparison loop of compareSemver in main.go: walk the first list
(the primary, chosen as the longer one by the caller), reading 0 for the
secondary once it is exhausted; the first strictly greater primary part
yields 1, the first strictly smaller yields -1, otherwise 0. -/
def cmpLoop : List Int → List Int → Int
  | [], _ => 0
  | a :: rest, [] => if 0 < a then 1 else if a < 0 then -1 else cmpLoop rest []
  | a :: rest, b :: rest2 => if b < a then 1 else if a < b then -1 else cmpLoop rest rest2

/-- The error value of a mkSemver result, as carried into the combined
compareSemver error message (nil for a successful parse). -/
def errOf : Except SemverErr (List Int) → Option SemverErr
  | .error e => some e
  | .ok _ => none

/-- Embedding of compareSemver in main.go: parse both strings; if either
fails, fail with the pair of optional sub-errors; otherwise take the
longer vector as primary (ties go to the first argument) and run the
comparison loop.  Note the source does not flip the sign when the second
argument is the longer vector. -/
def compareSemver (x y : String) : Except (Option SemverErr × Option SemverErr) Int :=
  match mkSemver x, mkSemver y with
  | .ok xs, .ok ys =>
    if ys.length ≤ xs.length then .ok (cmpLoop xs ys) else .ok (cmpLoop ys xs)
  | rx, ry => .error (errOf rx, errOf ry)

/-- Embedding of parseRepo in main.go and its regex, which is anchored
at the start only: the literal text github followed by any single
non-newline character (the dot in the pattern is a wildcard), then com
and a slash, then two runs of non-slash characters separated by a slash;
trailing path segments after the project name are ignored. -/
def parseRepo (repo : String) : Except EntryErr (String × String) :=
  match repo.data with
  | 'g' :: 'i' :: 't' :: 'h' :: 'u' :: 'b' :: c :: 'c' :: 'o' :: 'm' :: '/' :: rest =>
    if c = '\n' then .error (.repoParse repo)
    else
      let owner := rest.takeWhile (fun ch => ch != '/')
      match rest.dropWhile (fun ch => ch != '/') with
      | '/' :: rest2 => .ok (String.mk owner, String.mk (rest2.takeWhile (fun ch => ch != '/')))
      | _ => .error (.repoParse repo)
  | _ => .error (.repoParse repo)

/-- Embedding of checkEntry in main.go, parameterized by the external
release-lookup world (from owner and project to the HTTP outcome).  The
source passes the target of json.Unmarshal on line 118 by value rather
than by pointer, so the local variable tag necessarily keeps its zero
value, the empty string, and the unmarshal error is overwritten by the
compareSemver assignment on the next line; the embedding reproduces
this faithfully. -/
def checkEntry (e : SourceEntry) (world : String × String → HttpOutcome) :
    Except EntryErr Msg :=
  if e.URL.length ≠ 0 then .ok (.rawUrl e.URL)
  else
    match parseRepo e.Repo with
    | .error err => .error err
    | .ok (owner, gitrepo) =>
      match world (owner, gitrepo) with
      | .getErr => .error (.httpGet e.Repo)
      | .readErr => .error (.readBody e.URL)
      | .unmarshalErr => .error (.parseBody e.URL)
      | .ok none => .ok (.unverifiable e.Repo)
      | .ok (some _) =>
        let tag := ""
        match compareSemver e.Tag tag with
        | .error pair => .error (.compare pair.1 pair.2)
        | .ok rel =>
          if rel < 0 then .ok (.newer e.Repo e.Tag tag) else .ok (.upToDate e.Repo)

/-- The loop of checkNewer in main.go over the list of sources: messages
accumulate in order; the first entry error is returned together with the
messages collected so far, and no later entry is examined. -/
def checkNewerList (world : String × String → HttpOutcome) :
    List SourceEntry → List Msg × Option EntryErr
  | [] => ([], none)
  | e :: rest =>
    match checkEntry e world with
    | .error err => ([], some err)
    | .ok m =>
      let r := checkNewerList world rest
      (m :: r.1, r.2)

/-- Embedding of checkNewer in main.go. -/
def checkNewer (config : Config) (world : String × String → HttpOutcome) :
    List Msg × Option EntryErr :=
  checkNewerList world config.Sources

/-- The success part of a checkEntry result (none on error). -/
def okOf : Except EntryErr Msg → Option Msg
  | .ok m => some m
  | .error _ => none

/-- Embedding of searchForManifests in main.go, parameterized by the
sequence of filesystem-walk visits (path and whether it is a directory),
taken in walk order with no walk errors: the visit callback keeps every
visited path whose full path ends with the manifest name (a suffix test
with strings.HasSuffix, not a base-name comparison) and which is not a
directory. -/
def searchForManifests (visits : List (String × Bool)) : List String :=
  (visits.filter (fun v => manifestName.data.isSuffixOf v.1.data && !v.2)).map (fun v => v.1)

/-- The loop of validateConfig in main.go: the first entry with both a
url and a repo, or with a repo but no tag, produces the corresponding
error message; none models a nil error. -/
def validateEntries : List SourceEntry → Option String
  | [] => none
  | e :: rest =>
    if e.URL.length ≠ 0 ∧ e.Repo.length ≠ 0 then
      some "cannot define a url and a repo; pick one"
    else if e.Repo.length ≠ 0 ∧ e.Tag.length = 0 then
      some "when defining a repo you must also define a tag to pull"
    else validateEntries rest

/-- Embedding of validateConfig in main.go. -/
def validateConfig (config : Config) : Option String :=
  validateEntries config.Sources

/-- Modelled from the spec: the invariant wording of claim C4, that
exactly one of Repo or URL is set (set meaning non-empty), stated as a
boolean exclusive-or for comparison against validateConfig. -/
def exactlyOneOf (e : SourceEntry) : Bool :=
  (e.Repo.length != 0) != (e.URL.length != 0)

/-
Supporting lemmas about the version parser.
-/

lemma matchParts_digits :
    ∀ (k : Nat) (cs : List Char) (gs : List (List Char)),
      matchParts k cs = some gs →
      ∀ g ∈ gs, g ≠ [] ∧ ∀ c ∈ g, c.isDigit = true := by
  intro k
  induction k with
  | zero => intro cs gs h; simp [matchParts] at h
  | succ k ih =>
    intro cs gs h
    simp only [matchParts] at h
    split at h
    · simp at h
    next hds =>
      have hne : cs.takeWhile Char.isDigit ≠ [] := by
        intro hnil; rw [hnil] at hds; exact hds rfl
      split at h
      next =>
        injection h with h'
        subst h'
        intro g hg
        rw [List.mem_singleton] at hg
        subst hg
        exact ⟨hne, fun c hc => List.mem_takeWhile_imp hc⟩
      next c rest hdrop =>
        split at h
        next =>
          split at h
          next gs' hrec =>
            injection h with h'
            subst h'
            intro g hg
            rcases List.mem_cons.mp hg with hg1 | hg2
            · subst hg1; exact ⟨hne, fun c2 hc2 => List.mem_takeWhile_imp hc2⟩
            · exact ih rest gs' hrec g hg2
          next => simp at h
        next => simp at h

lemma parseInt32_digits {g : List Char} (hne : g ≠ [])
    (hd : ∀ c ∈ g, c.isDigit = true) :
    parseInt32 g =
      if (digitsVal g : Int) ≤ 2147483647 then some ((digitsVal g : Int)) else none := by
  cases g with
  | nil => exact absurd rfl hne
  | cons c rest =>
    have hcd : c.isDigit = true := hd c (List.mem_cons_self c rest)
    have hc1 : c ≠ '-' := by intro hx; rw [hx] at hcd; exact absurd hcd (by decide)
    have hc2 : c ≠ '+' := by intro hx; rw [hx] at hcd; exact absurd hcd (by decide)
    have hall : (c :: rest).all Char.isDigit = true := List.all_eq_true.mpr hd
    simp only [parseInt32, if_neg hc1, if_neg hc2, List.isEmpty_cons, hall,
      Bool.false_eq_true, if_false, if_true, one_mul]
    by_cases hle : (digitsVal (c :: rest) : Int) ≤ 2147483647
    · have hcond : ¬((digitsVal (c :: rest) : Int) < -2147483648 ∨
          (2147483647 : Int) < (digitsVal (c :: rest) : Int)) := by
        push_neg
        constructor
        · omega
        · exact hle
      rw [if_neg hcond, if_pos hle]
    · have hcond : (digitsVal (c :: rest) : Int) < -2147483648 ∨
          (2147483647 : Int) < (digitsVal (c :: rest) : Int) := by
        right; omega
      rw [if_pos hcond, if_neg hle]

lemma mkSemverParts_ok (s : String) :
    ∀ gs : List (List Char),
      (∀ g ∈ gs, g ≠ [] ∧ ∀ c ∈ g, c.isDigit = true) →
      (∀ g ∈ gs, digitsVal g ≤ 2147483647) →
      mkSemverParts s gs = .ok (gs.map fun g => (digitsVal g : Int)) := by
  intro gs
  induction gs with
  | nil => intro _ _; rfl
  | cons g gs ih =>
    intro hdig hb
    obtain ⟨hne, hd⟩ := hdig g (List.mem_cons_self g gs)
    have hbound : (digitsVal g : Int) ≤ 2147483647 := by
      have := hb g (List.mem_cons_self g gs)
      omega
    have hnn : ¬((digitsVal g : Int) < 0) := by omega
    rw [mkSemverParts, parseInt32_digits hne hd, if_pos hbound]
    simp only [if_neg hnn]
    rw [ih (fun g' hg' => hdig g' (List.mem_cons_of_mem g hg'))
      (fun g' hg' => hb g' (List.mem_cons_of_mem g hg'))]
    rfl

lemma mkSemverParts_no_neg (s : String) :
    ∀ gs : List (List Char),
      (∀ g ∈ gs, g ≠ [] ∧ ∀ c ∈ g, c.isDigit = true) →
      isNegErr (mkSemverParts s gs) = false := by
  intro gs
  induction gs with
  | nil => intro _; rfl
  | cons g gs ih =>
    intro hdig
    obtain ⟨hne, hd⟩ := hdig g (List.mem_cons_self g gs)
    rw [mkSemverParts, parseInt32_digits hne hd]
    by_cases hb : (digitsVal g : Int) ≤ 2147483647
    · rw [if_pos hb]
      have hnn : ¬((digitsVal g : Int) < 0) := by omega
      simp only [if_neg hnn]
      have hrest := ih (fun g' hg' => hdig g' (List.mem_cons_of_mem g hg'))
      cases hrec : mkSemverParts s gs with
      | ok v => rfl
      | error e => rw [hrec] at hrest; simpa using hrest
    · rw [if_neg hb]; rfl

/-
Supporting lemmas about the comparison loop.
-/

lemma cmpLoop_self : ∀ v : List Int, cmpLoop v v = 0 := by
  intro v
  induction v with
  | nil => rfl
  | cons a rest ih => simp [cmpLoop, lt_irrefl, ih]

lemma cmpLoop_antisymm :
    ∀ xs ys : List Int, xs.length = ys.length → cmpLoop ys xs = -cmpLoop xs ys := by
  intro xs
  induction xs with
  | nil =>
    intro ys h
    cases ys with
    | nil => rfl
    | cons b bs => simp at h
  | cons a rest ih =>
    intro ys h
    cases ys with
    | nil => simp at h
    | cons b bs =>
      simp only [List.length_cons, Nat.add_right_cancel_iff] at h
      simp only [cmpLoop]
      rcases lt_trichotomy a b with hab | hab | hab
      · rw [if_pos hab, if_neg (lt_asymm hab), if_pos hab]
        norm_num
      · subst hab
        simp only [lt_irrefl, if_false]
        exact ih bs h
      · rw [if_neg (lt_asymm hab), if_pos hab, if_pos hab]

lemma cmpLoop_pad :
    ∀ xs ys : List Int, ys.length ≤ xs.length →
      cmpLoop xs (ys ++ List.replicate (xs.length - ys.length) 0) = cmpLoop xs ys := by
  intro xs
  induction xs with
  | nil =>
    intro ys h
    have hnil : ys = [] := List.eq_nil_of_length_eq_zero (Nat.le_zero.mp h)
    subst hnil
    rfl
  | cons a rest ih =>
    intro ys h
    cases ys with
    | nil =>
      have ihh := ih [] (Nat.zero_le _)
      simp only [List.nil_append, List.length_nil, Nat.sub_zero] at ihh ⊢
      simp only [List.length_cons, List.replicate_succ, cmpLoop]
      rw [ihh]
    | cons b bs =>
      simp only [List.length_cons, Nat.add_le_add_iff_right] at h
      simp only [List.cons_append, List.length_cons, Nat.succ_sub_succ, cmpLoop,
        List.append_eq]
      rw [ih bs h]

/-
Supporting lemmas about validation and the reconciliation loop.
-/

lemma validateEntries_ok :
    ∀ l : List SourceEntry, validateEntries l = none →
      ∀ e ∈ l, (e.URL.length = 0 ∨ e.Repo.length = 0) ∧
        (e.Tag.length = 0 → e.Repo.length = 0) := by
  intro l
  induction l with
  | nil => intro _ e he; exact absurd he (List.not_mem_nil e)
  | cons a l ih =>
    intro h e he
    rw [validateEntries] at h
    by_cases h1 : a.URL.length ≠ 0 ∧ a.Repo.length ≠ 0
    · rw [if_pos h1] at h; simp at h
    · rw [if_neg h1] at h
      by_cases h2 : a.Repo.length ≠ 0 ∧ a.Tag.length = 0
      · rw [if_pos h2] at h; simp at h
      · rw [if_neg h2] at h
        rcases List.mem_cons.mp he with hee | he'
        · subst hee
          constructor
          · by_cases hu : e.URL.length = 0
            · exact Or.inl hu
            · right
              by_contra hr
              exact h1 ⟨hu, hr⟩
          · intro ht
            by_contra hr
            exact h2 ⟨hr, ht⟩
        · exact ih h e he'

lemma checkNewerList_first_error (world : String × String → HttpOutcome) :
    ∀ (l1 : List SourceEntry) (l2 : List SourceEntry) (e : SourceEntry) (err : EntryErr),
      (∀ x ∈ l1, (okOf (checkEntry x world)).isSome = true) →
      checkEntry e world = .error err →
      checkNewerList world (l1 ++ e :: l2) =
        (l1.filterMap (fun x => okOf (checkEntry x world)), some err) := by
  intro l1
  induction l1 with
  | nil =>
    intro l2 e err _ h2
    simp only [List.nil_append, List.filterMap_nil]
    rw [checkNewerList, h2]
  | cons a l1 ih =>
    intro l2 e err h1 h2
    have ha := h1 a (List.mem_cons_self a l1)
    cases hce : checkEntry a world with
    | error er => rw [hce] at ha; simp [okOf] at ha
    | ok m =>
      have ihh := ih l2 e err (fun x hx => h1 x (List.mem_cons_of_mem a hx)) h2
      simp only [List.cons_append, checkNewerList, hce, List.append_eq]
      rw [ihh]
      simp [List.filterMap_cons, okOf, hce]

/-
Claim theorems.
-/

/-- Claim C1 (code bug evaluation): for the entry with Repo
github.com/foo/bar and Tag 1.0.0, when the release lookup returns a JSON
object whose name field is the string 1.1.0, checkEntry does NOT produce
the Outdated classification claimed by the spec: because the source
passes the unmarshal target by value, the observed latest tag is never
populated, the pinned tag is compared against the empty string, the
comparison yields 1, and the entry is classified up to date. -/
theorem checkEntry_bug_eval :
    checkEntry (SourceEntry.mk "github.com/foo/bar" "1.0.0" "")
      (fun _ => HttpOutcome.ok (some "\"1.1.0\"")) =
      .ok (.upToDate "github.com/foo/bar") := by decide

/-- Claim C2 (counterexample): compareSemver is not antisymmetric.  On
the pair 1.2.3 and 1.3 both argument orders return -1, and -1 is not the
negation of -1. -/
theorem compareSemver_not_antisymm :
    compareSemver "1.2.3" "1.3" = .ok (-1) ∧
    compareSemver "1.3" "1.2.3" = .ok (-1) ∧
    ((-1 : Int) == -(-1 : Int)) = false := by decide

/-- Claim C2 (amended): compareSemver of a parseable string with itself
is 0; antisymmetry holds when the two parsed vectors have equal length;
and when the lengths differ the two argument orders return the SAME
value (the loop always walks the longer vector as primary without
flipping the sign), so antisymmetry fails whenever that value is
nonzero. -/
theorem compareSemver_amended (x y : String) (vx vy : List Int)
    (hx : mkSemver x = .ok vx) (hy : mkSemver y = .ok vy) :
    compareSemver x x = .ok 0 ∧
    (vx.length = vy.length →
      compareSemver y x = (compareSemver x y).map (fun r => -r)) ∧
    (compareSemver x y = compareSemver y x ∨ vx.length = vy.length) := by
  refine ⟨?_, ?_, ?_⟩
  · simp [compareSemver, hx, cmpLoop_self]
  · intro hlen
    simp only [compareSemver, hx, hy]
    rw [if_pos (le_of_eq hlen.symm), if_pos (le_of_eq hlen),
      cmpLoop_antisymm vx vy hlen]
    rfl
  · rcases Nat.lt_trichotomy vx.length vy.length with hl | hl | hl
    · left
      simp only [compareSemver, hx, hy]
      rw [if_neg (not_le.mpr hl), if_pos (le_of_lt hl)]
    · right; exact hl
    · left
      simp only [compareSemver, hx, hy]
      rw [if_pos (le_of_lt hl), if_neg (not_le.mpr hl)]

/-- Claim C2 witness: the amended statement instantiated at the
parseable pair 1.2 and 1.3, whose vectors have equal length. -/
theorem compareSemver_amended_witness :
    compareSemver "1.2" "1.2" = .ok 0 ∧
    (([1, 2] : List Int).length = ([1, 3] : List Int).length →
      compareSemver "1.3" "1.2" = (compareSemver "1.2" "1.3").map (fun r => -r)) ∧
    (compareSemver "1.2" "1.3" = compareSemver "1.3" "1.2" ∨
      ([1, 2] : List Int).length = ([1, 3] : List Int).length) :=
  compareSemver_amended "1.2" "1.3" [1, 2] [1, 3] (by decide) (by decide)

/-- Claim C3 (counterexample): on an input with no digit, mkSemver does
not fail; the regex simply does not match, the submatch loop never runs,
and the function returns the empty vector with a nil error. -/
theorem mkSemver_no_digits_counterexample :
    mkSemver "no-digits-here" = .ok [] := by decide

/-- Claim C3 (amended): mkSemver of v2.3 is the vector [2, 3] with no
error; the inputs no-digits-here and 1.-2 do not produce a parse error
but the empty vector with no error; in general every input string with
no digit yields the empty vector with no error. -/
theorem mkSemver_examples :
    mkSemver "v2.3" = .ok [2, 3] ∧
    mkSemver "no-digits-here" = .ok [] ∧
    mkSemver "1.-2" = .ok [] ∧
    ∀ s : String, (∀ c ∈ s.data, c.isDigit = false) → mkSemver s = .ok [] := by
  refine ⟨by decide, by decide, by decide, ?_⟩
  intro s hs
  have hdrop : s.data.dropWhile (fun c => !c.isDigit) = [] := by
    rw [List.dropWhile_eq_nil_iff]
    intro c hc
    simp [hs c hc]
  rw [mkSemver, semverMatch, hdrop]
  rfl

/-- Claim C3 witness: the general part of the amended statement applied
to a concrete digit-free string. -/
theorem mkSemver_examples_witness : mkSemver "xyz" = .ok [] :=
  mkSemver_examples.2.2.2 "xyz" (by decide)

/-- Claim C4 (counterexample): an entry with neither Repo nor URL set
passes validateConfig, so a validated config does not satisfy the
claimed exactly-one invariant. -/
theorem validateConfig_counterexample :
    validateConfig (Config.mk [SourceEntry.mk "" "" ""]) = none ∧
    exactlyOneOf (SourceEntry.mk "" "" "") = false := by decide

/-- Claim C4 (amended): for every Config accepted by validateConfig,
every entry has AT MOST one of Repo and URL set (both may be empty), and
an entry with an empty Tag has an empty Repo (equivalently, whenever
Repo is set, Tag is non-empty). -/
theorem validateConfig_ok_props (c : Config) (h : validateConfig c = none) :
    ∀ e ∈ c.Sources, (e.URL.length = 0 ∨ e.Repo.length = 0) ∧
      (e.Tag.length = 0 → e.Repo.length = 0) :=
  validateEntries_ok c.Sources h

/-- Claim C4 witness: the amended statement instantiated at a config
with one repo-and-tag entry that validateConfig accepts. -/
theorem validateConfig_ok_props_witness :
    ((SourceEntry.mk "github.com/a/b" "1.0" "").URL.length = 0 ∨
      (SourceEntry.mk "github.com/a/b" "1.0" "").Repo.length = 0) ∧
    ((SourceEntry.mk "github.com/a/b" "1.0" "").Tag.length = 0 →
      (SourceEntry.mk "github.com/a/b" "1.0" "").Repo.length = 0) :=
  validateConfig_ok_props (Config.mk [SourceEntry.mk "github.com/a/b" "1.0" ""])
    (by decide) (SourceEntry.mk "github.com/a/b" "1.0" "") (by decide)

/-- Claim C5 (counterexample): a tag that contains digits but carries
trailing content after the dot-separated components, such as 1.0-rc1 or
a sixth component, makes the doubly anchored regex fail to match, and
mkSemver returns the EMPTY vector (with no error) instead of the claimed
leading components. -/
theorem mkSemver_trailing_counterexample :
    mkSemver "1.0-rc1" = .ok [] ∧
    mkSemver "1.2.3.4.5.6" = .ok [] ∧
    (([] : List Int) == [1, 0]) = false := by decide

/-- Claim C5 (amended): when the anchored pattern matches the whole tag
(an optional non-digit prefix followed by one to five dot-separated
digit runs reaching the end of the string) and every component fits in a
signed 32-bit integer, mkSemver returns exactly the numeric values of
the captured components; when the pattern does not match, which includes
every digit-containing tag with trailing content after the components,
mkSemver returns the empty vector with no error. -/
theorem mkSemver_matched_amended :
    (∀ (s : String) (gs : List (List Char)), semverMatch s = some gs →
      (∀ g ∈ gs, digitsVal g ≤ 2147483647) →
      mkSemver s = .ok (gs.map fun g => (digitsVal g : Int))) ∧
    (∀ s : String, semverMatch s = none → mkSemver s = .ok []) := by
  constructor
  · intro s gs h hb
    have hdig := matchParts_digits 5 (s.data.dropWhile (fun c => !c.isDigit)) gs h
    rw [mkSemver, h]
    exact mkSemverParts_ok s gs hdig hb
  · intro s h
    rw [mkSemver, h]

/-- Claim C5 witness: the amended statement instantiated at the tag
v1.2, whose match captures the digit runs 1 and 2. -/
theorem mkSemver_matched_amended_witness :
    mkSemver "v1.2" = .ok ([['1'], ['2']].map fun g => (digitsVal g : Int)) :=
  mkSemver_matched_amended.1 "v1.2" [['1'], ['2']] (by decide) (by decide)

/-- Claim C6 (counterexample): a visited file whose base name is
MYSOURCES, which merely ends in SOURCES, IS returned by
searchForManifests, because the source tests the path with a suffix
check rather than comparing the base name for equality. -/
theorem searchForManifests_counterexample :
    searchForManifests [("MYSOURCES", false)] = ["MYSOURCES"] ∧
    (("MYSOURCES" : String) == manifestName) = false := by decide

/-- Claim C6 (amended): searchForManifests returns exactly the visited
paths that are not directories and whose FULL PATH ends with the
manifest name SOURCES; base names that merely end in SOURCES, such as
MYSOURCES, therefore also qualify. -/
theorem searchForManifests_mem (visits : List (String × Bool)) (p : String) :
    p ∈ searchForManifests visits ↔
      ((p, false) ∈ visits ∧ manifestName.data.isSuffixOf p.data = true) := by
  simp only [searchForManifests, List.mem_map, List.mem_filter]
  constructor
  · rintro ⟨⟨v1, v2⟩, ⟨hv, hcond⟩, rfl⟩
    simp only [Bool.and_eq_true, Bool.not_eq_true'] at hcond
    obtain ⟨hsuf, hdir⟩ := hcond
    subst hdir
    exact ⟨hv, hsuf⟩
  · rintro ⟨hv, hsuf⟩
    exact ⟨(p, false), ⟨hv, by simp [hsuf]⟩, rfl⟩

/-- Claim C6 witness: the amended membership statement instantiated at a
concrete walk containing a file named SOURCES inside a directory. -/
theorem searchForManifests_mem_witness :
    "dir/SOURCES" ∈ searchForManifests [("dir/SOURCES", false)] :=
  (searchForManifests_mem [("dir/SOURCES", false)] "dir/SOURCES").mpr (by decide)

/-- Claim C7: the four concrete comparisons from the spec hold, and in
general compareSemver of two parseable tags equals the comparison loop
run on the longer vector against the shorter vector zero-padded on the
right to the longer length. -/
theorem compareSemver_examples_pad :
    compareSemver "1.2" "1.2.0" = .ok 0 ∧
    compareSemver "1.2.0" "1.2" = .ok 0 ∧
    compareSemver "v1.10.0" "v1.9.9" = .ok 1 ∧
    compareSemver "release-2.0.1" "2.0.1" = .ok 0 ∧
    ∀ (x y : String) (xs ys : List Int), mkSemver x = .ok xs → mkSemver y = .ok ys →
      compareSemver x y = .ok (if ys.length ≤ xs.length
        then cmpLoop xs (ys ++ List.replicate (xs.length - ys.length) 0)
        else cmpLoop ys (xs ++ List.replicate (ys.length - xs.length) 0)) := by
  refine ⟨by decide, by decide, by decide, by decide, ?_⟩
  intro x y xs ys hx hy
  simp only [compareSemver, hx, hy]
  by_cases h : ys.length ≤ xs.length
  · rw [if_pos h, if_pos h, cmpLoop_pad xs ys h]
  · rw [if_neg h, if_neg h, cmpLoop_pad ys xs (le_of_lt (not_le.mp h))]

/-- Claim C7 witness: the padding statement instantiated at the
parseable pair 1.2.3 and 4.5. -/
theorem compareSemver_examples_pad_witness :
    compareSemver "1.2.3" "4.5" =
      .ok (if ([4, 5] : List Int).length ≤ ([1, 2, 3] : List Int).length
        then cmpLoop [1, 2, 3]
          ([4, 5] ++ List.replicate (([1, 2, 3] : List Int).length - ([4, 5] : List Int).length) 0)
        else cmpLoop [4, 5]
          ([1, 2, 3] ++ List.replicate (([4, 5] : List Int).length - ([1, 2, 3] : List Int).length) 0)) :=
  compareSemver_examples_pad.2.2.2.2 "1.2.3" "4.5" [1, 2, 3] [4, 5] (by decide) (by decide)

/-- Claim C8: when every entry of the prefix succeeds and the next entry
fails, checkNewer returns exactly the prefix entries' messages together
with the failing entry's error, and the result does not depend on the
entries after the failing one (they are never examined). -/
theorem checkNewer_first_error (world : String × String → HttpOutcome)
    (l1 l2 : List SourceEntry) (e : SourceEntry) (err : EntryErr)
    (h1 : ∀ x ∈ l1, (okOf (checkEntry x world)).isSome = true)
    (h2 : checkEntry e world = .error err) :
    checkNewer (Config.mk (l1 ++ e :: l2)) world =
      (l1.filterMap (fun x => okOf (checkEntry x world)), some err) :=
  checkNewerList_first_error world l1 l2 e err h1 h2

/-- Claim C8 witness: a raw-url entry succeeds, the following entry has
an unparseable repo reference, and a further entry follows; checkNewer
returns the single raw-url message and the repo parse error. -/
theorem checkNewer_first_error_witness :
    checkNewer (Config.mk
        [SourceEntry.mk "" "" "http://x", SourceEntry.mk "bad" "" "",
          SourceEntry.mk "" "" "http://y"])
      (fun _ => HttpOutcome.ok none) =
      ([SourceEntry.mk "" "" "http://x"].filterMap
          (fun x => okOf (checkEntry x (fun _ => HttpOutcome.ok none))),
        some (.repoParse "bad")) :=
  checkNewer_first_error (fun _ => HttpOutcome.ok none)
    [SourceEntry.mk "" "" "http://x"] [SourceEntry.mk "" "" "http://y"]
    (SourceEntry.mk "bad" "" "") (.repoParse "bad") (by decide) (by decide)

/-- Claim C9: when the release lookup succeeds but the decoded object
has no usable name field (absent or JSON null), checkEntry returns the
yellow unverifiable message with no error; no comparison is involved
(the result is the same whatever the entry's tag). -/
theorem checkEntry_unverifiable (e : SourceEntry)
    (world : String × String → HttpOutcome) (owner proj : String)
    (hurl : e.URL = "") (hrepo : parseRepo e.Repo = .ok (owner, proj))
    (hworld : world (owner, proj) = .ok none) :
    checkEntry e world = .ok (.unverifiable e.Repo) := by
  simp [checkEntry, hurl, hrepo, hworld]

/-- Claim C9 witness: the statement instantiated at a concrete entry and
a lookup world that reports a null release name. -/
theorem checkEntry_unverifiable_witness :
    checkEntry (SourceEntry.mk "github.com/foo/bar" "9.9" "")
      (fun _ => HttpOutcome.ok none) =
      .ok (.unverifiable "github.com/foo/bar") :=
  checkEntry_unverifiable (SourceEntry.mk "github.com/foo/bar" "9.9" "")
    (fun _ => HttpOutcome.ok none) "foo" "bar" rfl (by decide) rfl

/-- Claim C10: the part-below-zero error branch of mkSemver is
unreachable: every captured group is a run of decimal digits, so its
parsed value is never negative, and no input string makes mkSemver
return the negative-part error. -/
theorem mkSemver_neg_unreachable (s : String) : isNegErr (mkSemver s) = false := by
  rw [mkSemver]
  cases h : semverMatch s with
  | none => rfl
  | some gs =>
    have h' : matchParts 5 (s.data.dropWhile (fun c => !c.isDigit)) = some gs := by
      rw [semverMatch] at h; exact h
    exact mkSemverParts_no_neg s gs (matchParts_digits 5 _ gs h')

end Sourcerer
